import Mathlib

/-!
Verification of the PrivateQA contract (Solidity, `contract PrivateQA` embedded in
`frontend/src/hooks/usePrivateQA.ts`) and of the text↔number packing helpers in
`frontend/src/utils/whisperEncryption.ts`.

The contract is embedded shallowly: `uint256` values become `Nat`, with the one
caller-reachable Solidity 0.8 checked-arithmetic overflow — the addition
`block.timestamp + duration` in `createSession` — modelled as an explicit revert
guard (counter increments cannot overflow in any reachable state and stay plain
`Nat`); addresses become
`Nat`, Solidity `mapping`s become total functions with the zero-struct default,
and each external function becomes a Lean function threading the state and
returning the state at the point of return or revert together with an
`Except String` result carrying the revert reason. A failed `require` aborts with
the state accumulated so far (no implicit rollback is modelled), so atomicity
theorems genuinely reflect the check-before-effect ordering of the source.
The external FHE engine is opaque: `FHE.fromExternal` yields the submitted
payload as an opaque handle, `FHE.allow`/`FHE.allowThis` append to grant lists.
-/

namespace PrivateQA

/-- `struct Session` of the contract. -/
structure Session where
  id : Nat := 0
  host : Nat := 0
  topic : String := ""
  description : String := ""
  createdAt : Nat := 0
  expiresAt : Nat := 0
  isActive : Bool := false
  questionCount : Nat := 0
  answeredCount : Nat := 0
deriving Repr, DecidableEq

/-- `struct Question` of the contract. -/
structure Question where
  id : Nat := 0
  sessionId : Nat := 0
  asker : Nat := 0
  timestamp : Nat := 0
  isAnswered : Bool := false
deriving Repr, DecidableEq

/-- The contract's storage: the mappings and counters declared in `PrivateQA`,
plus the grant lists maintained by the external FHE engine (`FHE.allow` pairs a
ciphertext handle with a grantee address, `FHE.allowThis` grants the contract). -/
structure QAState where
  sessions : Nat → Session
  questions : Nat → Question
  encryptedQuestions : Nat → Nat
  encryptedAnswers : Nat → Nat
  sessionQuestions : Nat → List Nat
  hostSessions : Nat → List Nat
  userQuestions : Nat → List Nat
  sessionCount : Nat
  questionCount : Nat
  allowed : List (Nat × Nat)
  allowedThis : List Nat

/-- Point update of a Solidity mapping. -/
def mapSet (f : Nat → α) (k : Nat) (v : α) : Nat → α :=
  fun i => if i = k then v else f i

/-- Freshly deployed contract: every mapping at its zero default, counters 0. -/
def initialState : QAState where
  sessions := fun _ => {}
  questions := fun _ => {}
  encryptedQuestions := fun _ => 0
  encryptedAnswers := fun _ => 0
  sessionQuestions := fun _ => []
  hostSessions := fun _ => []
  userQuestions := fun _ => []
  sessionCount := 0
  questionCount := 0
  allowed := []
  allowedThis := []

/-- `createSession(topic, description, duration)`:
requires non-empty topic and positive duration, then assigns id
`sessionCount+1`, stores the session with `expiresAt = block.timestamp +
duration`, and appends the id to `hostSessions[msg.sender]`.

The checked `uint256` addition `block.timestamp + duration` (Solidity 0.8)
panics with `Panic(0x11)` when it overflows, and the EVM then reverts the
entire call — including the `sessionCount++` that textually precedes the
addition — so the observable behaviour is a failure with no storage effect;
it is modelled here as a guard before the writes. The counter increments
themselves (`sessionCount++`, `questionCount++`, per-session counters) stay
on unbounded `Nat`: overflowing them would need `2^256` prior successful
calls, which no caller can cause. -/
def createSession (st : QAState) (sender now : Nat) (topic description : String)
    (duration : Nat) : QAState × Except String Nat :=
  if ¬ 0 < topic.utf8ByteSize then (st, .error "Topic cannot be empty")
  else if ¬ 0 < duration then (st, .error "Duration must be positive")
  else if 2 ^ 256 ≤ now + duration then (st, .error "Panic(0x11): arithmetic overflow")
  else
    ({ st with
        sessionCount := st.sessionCount + 1
        sessions := mapSet st.sessions (st.sessionCount + 1)
          { id := st.sessionCount + 1, host := sender, topic := topic,
            description := description, createdAt := now,
            expiresAt := now + duration, isActive := true,
            questionCount := 0, answeredCount := 0 }
        hostSessions := mapSet st.hostSessions sender
          (st.hostSessions sender ++ [st.sessionCount + 1]) },
      .ok (st.sessionCount + 1))

/-- `submitQuestion(sessionId, encryptedQuestion, inputProof)`:
modifiers `sessionExists` then `sessionActive`, then stores the question
ciphertext handle, grants the contract and the host, records the `Question`
with the caller as asker, appends to `sessionQuestions[sessionId]` and
`userQuestions[msg.sender]`, and increments the session's `questionCount`. -/
def submitQuestion (st : QAState) (sender now sid payload : Nat) :
    QAState × Except String Nat :=
  if ¬ (0 < sid ∧ sid ≤ st.sessionCount) then (st, .error "Session does not exist")
  else if ¬ (st.sessions sid).isActive = true then (st, .error "Session not active")
  else if ¬ now < (st.sessions sid).expiresAt then (st, .error "Session expired")
  else
    ({ st with
        questionCount := st.questionCount + 1
        encryptedQuestions := mapSet st.encryptedQuestions (st.questionCount + 1) payload
        allowedThis := payload :: st.allowedThis
        allowed := (payload, (st.sessions sid).host) :: st.allowed
        questions := mapSet st.questions (st.questionCount + 1)
          { id := st.questionCount + 1, sessionId := sid, asker := sender,
            timestamp := now, isAnswered := false }
        sessionQuestions := mapSet st.sessionQuestions sid
          (st.sessionQuestions sid ++ [st.questionCount + 1])
        userQuestions := mapSet st.userQuestions sender
          (st.userQuestions sender ++ [st.questionCount + 1])
        sessions := mapSet st.sessions sid
          { st.sessions sid with questionCount := (st.sessions sid).questionCount + 1 } },
      .ok (st.questionCount + 1))

/-- `requestQuestionAccess(questionId)`: valid id, caller must be the host of
the question's session; grants the caller on the question ciphertext. -/
def requestQuestionAccess (st : QAState) (sender qid : Nat) :
    QAState × Except String Unit :=
  if ¬ (0 < qid ∧ qid ≤ st.questionCount) then (st, .error "Invalid question ID")
  else if ¬ (st.sessions ((st.questions qid).sessionId)).host = sender then
    (st, .error "Not session host")
  else ({ st with allowed := (st.encryptedQuestions qid, sender) :: st.allowed }, .ok ())

/-- `answerQuestion(questionId, encryptedAnswer, inputProof)`: valid id, caller
must be the host of the question's session, question not yet answered; stores
the answer handle, grants the contract and the original asker, sets
`isAnswered`, increments the session's `answeredCount`. -/
def answerQuestion (st : QAState) (sender qid payload : Nat) :
    QAState × Except String Unit :=
  if ¬ (0 < qid ∧ qid ≤ st.questionCount) then (st, .error "Invalid question ID")
  else if ¬ (st.sessions ((st.questions qid).sessionId)).host = sender then
    (st, .error "Not session host")
  else if (st.questions qid).isAnswered = true then (st, .error "Already answered")
  else
    ({ st with
        encryptedAnswers := mapSet st.encryptedAnswers qid payload
        allowedThis := payload :: st.allowedThis
        allowed := (payload, (st.questions qid).asker) :: st.allowed
        questions := mapSet st.questions qid
          { st.questions qid with isAnswered := true }
        sessions := mapSet st.sessions ((st.questions qid).sessionId)
          { st.sessions ((st.questions qid).sessionId) with
            answeredCount := (st.sessions ((st.questions qid).sessionId)).answeredCount + 1 } },
      .ok ())

/-- `requestAnswerAccess(questionId)`: valid id, caller must be the recorded
asker, question must be answered; grants the caller on the answer ciphertext. -/
def requestAnswerAccess (st : QAState) (sender qid : Nat) :
    QAState × Except String Unit :=
  if ¬ (0 < qid ∧ qid ≤ st.questionCount) then (st, .error "Invalid question ID")
  else if ¬ (st.questions qid).asker = sender then (st, .error "Not question asker")
  else if ¬ (st.questions qid).isAnswered = true then (st, .error "Question not answered yet")
  else ({ st with allowed := (st.encryptedAnswers qid, sender) :: st.allowed }, .ok ())

/-- `getEncryptedAnswer(questionId)` (view): valid id, caller must be the
recorded asker, question must be answered; returns the answer handle. -/
def getEncryptedAnswer (st : QAState) (sender qid : Nat) : Except String Nat :=
  if ¬ (0 < qid ∧ qid ≤ st.questionCount) then .error "Invalid question ID"
  else if ¬ (st.questions qid).asker = sender then .error "Not question asker"
  else if ¬ (st.questions qid).isAnswered = true then .error "Question not answered yet"
  else .ok (st.encryptedAnswers qid)

/-- `closeSession(sessionId)`: modifiers `sessionExists` and `onlyHost`, then
requires the session to still be active, and deactivates it. -/
def closeSession (st : QAState) (sender sid : Nat) : QAState × Except String Unit :=
  if ¬ (0 < sid ∧ sid ≤ st.sessionCount) then (st, .error "Session does not exist")
  else if ¬ (st.sessions sid).host = sender then (st, .error "Not session host")
  else if ¬ (st.sessions sid).isActive = true then (st, .error "Session already closed")
  else ({ st with sessions := mapSet st.sessions sid { st.sessions sid with isActive := false } }, .ok ())

/-- One call to any of the contract's mutating entry points, with its
arguments (`sender` is `msg.sender`, `now` is `block.timestamp`). -/
inductive Op where
  | create (sender now : Nat) (topic description : String) (duration : Nat)
  | submit (sender now sid payload : Nat)
  | answer (sender qid payload : Nat)
  | close (sender sid : Nat)
  | reqQAccess (sender qid : Nat)
  | reqAAccess (sender qid : Nat)

/-- Execute one mutating call: resulting storage plus success or revert reason. -/
def step (st : QAState) : Op → QAState × Except String Unit
  | .create sender now topic description duration =>
      ((createSession st sender now topic description duration).1,
        (createSession st sender now topic description duration).2.map fun _ => ())
  | .submit sender now sid payload =>
      ((submitQuestion st sender now sid payload).1,
        (submitQuestion st sender now sid payload).2.map fun _ => ())
  | .answer sender qid payload => answerQuestion st sender qid payload
  | .close sender sid => closeSession st sender sid
  | .reqQAccess sender qid => requestQuestionAccess st sender qid
  | .reqAAccess sender qid => requestAnswerAccess st sender qid

/-- Storage states reachable from deployment by any sequence of calls
(reverted calls leave the state they returned, which atomicity shows is the
pre-state). -/
inductive Reachable : QAState → Prop where
  | init : Reachable initialState
  | next {st : QAState} (op : Op) : Reachable st → Reachable (step st op).1

/-- Concrete run for witnesses: address 100 hosts session 1 at time 1000. -/
def demoAfterCreate : QAState :=
  (createSession initialState 100 1000 "AMA" "desc" 3600).1

/-- Address 7 submits question 1 (payload handle 42) at time 2000. -/
def demoAfterSubmit : QAState :=
  (submitQuestion demoAfterCreate 7 2000 1 42).1

/-- The host answers question 1 (payload handle 77). -/
def demoAfterAnswer : QAState :=
  (answerQuestion demoAfterSubmit 100 1 77).1

/-- C3 counterexample: with the nonempty topic "AMA" and the positive
duration `2^256 - 1`, the checked addition `block.timestamp + duration`
overflows `uint256` at time 1 and the call reverts, so "fails exactly when
topic is empty or duration ≤ 0" is false as stated. -/
theorem createSession_overflow_counterexample :
    0 < "AMA".utf8ByteSize ∧ 0 < 2 ^ 256 - 1 ∧
    (createSession initialState 100 1 "AMA" "desc" (2 ^ 256 - 1)).2
      = .error "Panic(0x11): arithmetic overflow" := by
  refine ⟨by decide, by decide, ?_⟩
  unfold createSession
  rw [if_neg (not_not_intro (by decide)), if_neg (not_not_intro (by decide)),
    if_pos (by decide)]

/-- C3 (amended): `createSession` fails exactly when the topic is empty, the
duration is 0, or `expiresAt = block.timestamp + duration` overflows
`uint256`; on success it returns id `sessionCount + 1`, stores the session
with the caller as host, `expiresAt = createdAt + duration` (hence
`createdAt < expiresAt`), zero counters, `isActive = true`, and appends the
id to the caller's `hostSessions` index. -/
theorem createSession_spec (st : QAState) (sender now : Nat)
    (topic description : String) (duration : Nat) :
    ((∃ msg, (createSession st sender now topic description duration).2 = .error msg) ↔
      (topic.utf8ByteSize = 0 ∨ duration = 0 ∨ 2 ^ 256 ≤ now + duration)) ∧
    (topic.utf8ByteSize ≠ 0 → duration ≠ 0 → now + duration < 2 ^ 256 →
      (createSession st sender now topic description duration).2 = .ok (st.sessionCount + 1) ∧
      (createSession st sender now topic description duration).1.sessionCount
          = st.sessionCount + 1 ∧
      (createSession st sender now topic description duration).1.sessions
            (st.sessionCount + 1)
          = { id := st.sessionCount + 1, host := sender, topic := topic,
              description := description, createdAt := now,
              expiresAt := now + duration, isActive := true,
              questionCount := 0, answeredCount := 0 } ∧
      ((createSession st sender now topic description duration).1.sessions
            (st.sessionCount + 1)).createdAt
          < ((createSession st sender now topic description duration).1.sessions
            (st.sessionCount + 1)).expiresAt ∧
      (createSession st sender now topic description duration).1.hostSessions sender
          = st.hostSessions sender ++ [st.sessionCount + 1]) := by
  unfold createSession
  split_ifs with h1 h2 h3
  · exact ⟨⟨fun _ => by omega, fun _ => ⟨_, rfl⟩⟩,
      fun ht hd hov => absurd h3 (by omega)⟩
  · refine ⟨⟨?_, ?_⟩, ?_⟩
    · rintro ⟨msg, h⟩
      exact absurd h (by simp)
    · intro h
      omega
    · intro _ _ _
      refine ⟨rfl, rfl, by simp [mapSet], ?_, by simp [mapSet]⟩
      simp [mapSet]
      omega
  · exact ⟨⟨fun _ => by omega, fun _ => ⟨_, rfl⟩⟩, fun ht hd hov => (hd (by omega)).elim⟩
  · exact ⟨⟨fun _ => by omega, fun _ => ⟨_, rfl⟩⟩, fun ht hd hov => (ht (by omega)).elim⟩

/-- Witness for C3: the demo creation succeeds with the stated record. -/
theorem createSession_spec_witness :
    (createSession initialState 100 1000 "AMA" "desc" 3600).2 = .ok 1 ∧
    (createSession initialState 100 1000 "AMA" "desc" 3600).1.sessionCount = 1 ∧
    (createSession initialState 100 1000 "AMA" "desc" 3600).1.sessions 1
        = { id := 1, host := 100, topic := "AMA", description := "desc",
            createdAt := 1000, expiresAt := 4600, isActive := true,
            questionCount := 0, answeredCount := 0 } ∧
    ((createSession initialState 100 1000 "AMA" "desc" 3600).1.sessions 1).createdAt
        < ((createSession initialState 100 1000 "AMA" "desc" 3600).1.sessions 1).expiresAt ∧
    (createSession initialState 100 1000 "AMA" "desc" 3600).1.hostSessions 100 = [1] :=
  (createSession_spec initialState 100 1000 "AMA" "desc" 3600).2
    (by decide) (by decide) (by decide)

/-- C1: `submitQuestion` fails whenever the session is missing (`sid = 0` or
`sid > sessionCount`), inactive, or expired (`now ≥ expiresAt`); otherwise it
succeeds, increments that session's `questionCount` by exactly 1, records the
caller as asker of the new question, and appends the new question id to the
session's question index and the caller's personal question index. -/
theorem submitQuestion_spec (st : QAState) (sender now sid payload : Nat) :
    ((sid = 0 ∨ st.sessionCount < sid ∨ (st.sessions sid).isActive = false ∨
        (st.sessions sid).expiresAt ≤ now) →
      ∃ msg, (submitQuestion st sender now sid payload).2 = .error msg) ∧
    (0 < sid → sid ≤ st.sessionCount → (st.sessions sid).isActive = true →
      now < (st.sessions sid).expiresAt →
      (submitQuestion st sender now sid payload).2 = .ok (st.questionCount + 1) ∧
      ((submitQuestion st sender now sid payload).1.sessions sid).questionCount
          = (st.sessions sid).questionCount + 1 ∧
      ((submitQuestion st sender now sid payload).1.questions
          (st.questionCount + 1)).asker = sender ∧
      (submitQuestion st sender now sid payload).1.sessionQuestions sid
          = st.sessionQuestions sid ++ [st.questionCount + 1] ∧
      (submitQuestion st sender now sid payload).1.userQuestions sender
          = st.userQuestions sender ++ [st.questionCount + 1]) := by
  unfold submitQuestion
  split_ifs with h1 h2 h3
  · refine ⟨?_, fun _ _ _ _ =>
      ⟨rfl, by simp [mapSet], by simp [mapSet], by simp [mapSet], by simp [mapSet]⟩⟩
    rintro (h | h | h | h)
    · omega
    · omega
    · rw [h2] at h
      exact (Bool.true_eq_false.mp h).elim
    · omega
  · exact ⟨fun _ => ⟨_, rfl⟩, fun _ _ _ h => absurd h (by omega)⟩
  · exact ⟨fun _ => ⟨_, rfl⟩, fun _ _ h _ => (h2 h).elim⟩
  · exact ⟨fun _ => ⟨_, rfl⟩, fun hp hle _ _ => (h1 ⟨hp, hle⟩).elim⟩

/-- Witness for C1: in the demo state, session 1 is live at time 2000, and the
submission by address 7 succeeds with all the stated effects; session 2 does
not exist, so submitting to it fails. -/
theorem submitQuestion_spec_witness :
    ((submitQuestion demoAfterCreate 7 2000 1 42).2 = .ok 1 ∧
      ((submitQuestion demoAfterCreate 7 2000 1 42).1.sessions 1).questionCount = 1 ∧
      ((submitQuestion demoAfterCreate 7 2000 1 42).1.questions 1).asker = 7 ∧
      (submitQuestion demoAfterCreate 7 2000 1 42).1.sessionQuestions 1 = [1] ∧
      (submitQuestion demoAfterCreate 7 2000 1 42).1.userQuestions 7 = [1]) ∧
    (∃ msg, (submitQuestion demoAfterCreate 7 2000 2 42).2 = .error msg) := by
  constructor
  · have h := (submitQuestion_spec demoAfterCreate 7 2000 1 42).2
      (by decide) (by decide) (by decide) (by decide)
    simpa [demoAfterCreate, createSession, mapSet] using h
  · exact (submitQuestion_spec demoAfterCreate 7 2000 2 42).1 (Or.inr (Or.inl (by decide)))

/-- No contract call ever resets `isAnswered` of an existing question. -/
lemma step_isAnswered_mono (st : QAState) (op : Op) (q : Nat)
    (hq : q ≤ st.questionCount) (h : (st.questions q).isAnswered = true) :
    ((step st op).1.questions q).isAnswered = true := by
  cases op
  case create sender now topic description duration =>
    simp only [step]
    unfold createSession
    split_ifs <;> exact h
  case submit sender now sid payload =>
    simp only [step]
    unfold submitQuestion
    split_ifs <;> try exact h
    simp only [mapSet]
    rw [if_neg (by omega)]
    exact h
  case answer sender qid payload =>
    simp only [step]
    unfold answerQuestion
    split_ifs <;> try exact h
    simp only [mapSet]
    by_cases hqq : q = qid
    · rw [if_pos hqq]
    · rw [if_neg hqq]
      exact h
  case close sender sid =>
    simp only [step]
    unfold closeSession
    split_ifs <;> exact h
  case reqQAccess sender qid =>
    simp only [step]
    unfold requestQuestionAccess
    split_ifs <;> exact h
  case reqAAccess sender qid =>
    simp only [step]
    unfold requestAnswerAccess
    split_ifs <;> exact h

/-- C2: a first `answerQuestion` by the host on an existing unanswered question
succeeds, flips `isAnswered` from false to true, increments the parent
session's `answeredCount` by 1, and grants the original asker access to the
answer ciphertext; once `isAnswered` is true any further `answerQuestion` call
fails (with "Already answered" when the caller is the host), and no operation
ever resets `isAnswered` of an existing question. -/
theorem answerQuestion_spec (st : QAState) (sender qid payload : Nat) :
    (0 < qid → qid ≤ st.questionCount →
      (st.sessions ((st.questions qid).sessionId)).host = sender →
      (st.questions qid).isAnswered = false →
      (answerQuestion st sender qid payload).2 = .ok () ∧
      ((answerQuestion st sender qid payload).1.questions qid).isAnswered = true ∧
      ((answerQuestion st sender qid payload).1.sessions
            ((st.questions qid).sessionId)).answeredCount
          = (st.sessions ((st.questions qid).sessionId)).answeredCount + 1 ∧
      (payload, (st.questions qid).asker) ∈ (answerQuestion st sender qid payload).1.allowed) ∧
    ((st.questions qid).isAnswered = true →
      ∃ msg, (answerQuestion st sender qid payload).2 = .error msg) ∧
    (0 < qid → qid ≤ st.questionCount →
      (st.sessions ((st.questions qid).sessionId)).host = sender →
      (st.questions qid).isAnswered = true →
      (answerQuestion st sender qid payload).2 = .error "Already answered") ∧
    (∀ (st' : QAState) (op : Op) (q : Nat), q ≤ st'.questionCount →
      (st'.questions q).isAnswered = true →
      ((step st' op).1.questions q).isAnswered = true) := by
  refine ⟨?_, ?_, ?_, fun st' op q hq h => step_isAnswered_mono st' op q hq h⟩
  · intro hp hle hhost hna
    unfold answerQuestion
    rw [if_neg (not_not_intro ⟨hp, hle⟩), if_neg (not_not_intro hhost),
      if_neg (by rw [hna]; exact Bool.false_ne_true)]
    refine ⟨rfl, by simp [mapSet], by simp [mapSet], by simp⟩
  · intro ha
    unfold answerQuestion
    by_cases hv : 0 < qid ∧ qid ≤ st.questionCount
    · rw [if_neg (not_not_intro hv)]
      by_cases hh : (st.sessions ((st.questions qid).sessionId)).host = sender
      · rw [if_neg (not_not_intro hh), if_pos ha]
        exact ⟨_, rfl⟩
      · rw [if_pos hh]
        exact ⟨_, rfl⟩
    · rw [if_pos hv]
      exact ⟨_, rfl⟩
  · intro hp hle hhost ha
    unfold answerQuestion
    rw [if_neg (not_not_intro ⟨hp, hle⟩), if_neg (not_not_intro hhost), if_pos ha]

/-- Witness for C2: in the demo run, the host's first answer to question 1
succeeds with all stated effects, the repeat attempt fails with
"Already answered", and closing the session keeps question 1 answered. -/
theorem answerQuestion_spec_witness :
    ((answerQuestion demoAfterSubmit 100 1 77).2 = .ok () ∧
      ((answerQuestion demoAfterSubmit 100 1 77).1.questions 1).isAnswered = true ∧
      ((answerQuestion demoAfterSubmit 100 1 77).1.sessions 1).answeredCount = 1 ∧
      (77, 7) ∈ (answerQuestion demoAfterSubmit 100 1 77).1.allowed) ∧
    (answerQuestion demoAfterAnswer 100 1 99).2 = .error "Already answered" ∧
    ((step demoAfterAnswer (.close 100 1)).1.questions 1).isAnswered = true := by
  refine ⟨?_, ?_, ?_⟩
  · have h := (answerQuestion_spec demoAfterSubmit 100 1 77).1
      (by decide) (by decide) (by decide) (by decide)
    simpa [demoAfterSubmit, demoAfterCreate, createSession, submitQuestion, mapSet] using h
  · exact (answerQuestion_spec demoAfterAnswer 100 1 99).2.2.1
      (by decide) (by decide) (by decide) (by decide)
  · exact (answerQuestion_spec demoAfterAnswer 100 1 99).2.2.2
      demoAfterAnswer (.close 100 1) 1 (by decide) (by decide)

/-- C4: `answerQuestion`, `closeSession` and `requestQuestionAccess` are
host-only: any caller other than the recorded host of the (question's) session
is rejected, and a successful call implies the caller is that host. -/
theorem hostOnly_spec (st : QAState) (sender qid sid payload : Nat) :
    (((answerQuestion st sender qid payload).2 = .ok () →
        (st.sessions ((st.questions qid).sessionId)).host = sender) ∧
      ((st.sessions ((st.questions qid).sessionId)).host ≠ sender →
        ∃ msg, (answerQuestion st sender qid payload).2 = .error msg)) ∧
    (((closeSession st sender sid).2 = .ok () → (st.sessions sid).host = sender) ∧
      ((st.sessions sid).host ≠ sender →
        ∃ msg, (closeSession st sender sid).2 = .error msg)) ∧
    (((requestQuestionAccess st sender qid).2 = .ok () →
        (st.sessions ((st.questions qid).sessionId)).host = sender) ∧
      ((st.sessions ((st.questions qid).sessionId)).host ≠ sender →
        ∃ msg, (requestQuestionAccess st sender qid).2 = .error msg)) := by
  refine ⟨⟨?_, ?_⟩, ⟨?_, ?_⟩, ⟨?_, ?_⟩⟩
  · intro hok
    unfold answerQuestion at hok
    by_cases hv : 0 < qid ∧ qid ≤ st.questionCount
    · rw [if_neg (not_not_intro hv)] at hok
      by_cases hh : (st.sessions ((st.questions qid).sessionId)).host = sender
      · exact hh
      · rw [if_pos hh] at hok
        exact absurd hok (by simp)
    · rw [if_pos hv] at hok
      exact absurd hok (by simp)
  · intro hne
    unfold answerQuestion
    by_cases hv : 0 < qid ∧ qid ≤ st.questionCount
    · rw [if_neg (not_not_intro hv), if_pos hne]
      exact ⟨_, rfl⟩
    · rw [if_pos hv]
      exact ⟨_, rfl⟩
  · intro hok
    unfold closeSession at hok
    by_cases hv : 0 < sid ∧ sid ≤ st.sessionCount
    · rw [if_neg (not_not_intro hv)] at hok
      by_cases hh : (st.sessions sid).host = sender
      · exact hh
      · rw [if_pos hh] at hok
        exact absurd hok (by simp)
    · rw [if_pos hv] at hok
      exact absurd hok (by simp)
  · intro hne
    unfold closeSession
    by_cases hv : 0 < sid ∧ sid ≤ st.sessionCount
    · rw [if_neg (not_not_intro hv), if_pos hne]
      exact ⟨_, rfl⟩
    · rw [if_pos hv]
      exact ⟨_, rfl⟩
  · intro hok
    unfold requestQuestionAccess at hok
    by_cases hv : 0 < qid ∧ qid ≤ st.questionCount
    · rw [if_neg (not_not_intro hv)] at hok
      by_cases hh : (st.sessions ((st.questions qid).sessionId)).host = sender
      · exact hh
      · rw [if_pos hh] at hok
        exact absurd hok (by simp)
    · rw [if_pos hv] at hok
      exact absurd hok (by simp)
  · intro hne
    unfold requestQuestionAccess
    by_cases hv : 0 < qid ∧ qid ≤ st.questionCount
    · rw [if_neg (not_not_intro hv), if_pos hne]
      exact ⟨_, rfl⟩
    · rw [if_pos hv]
      exact ⟨_, rfl⟩

/-- Witness for C4: in the demo state the non-host address 7 is rejected by
all three host-only entry points, and the host's successful answer call indeed
came from the recorded host. -/
theorem hostOnly_spec_witness :
    (∃ msg, (answerQuestion demoAfterSubmit 7 1 5).2 = .error msg) ∧
    (∃ msg, (closeSession demoAfterSubmit 7 1).2 = .error msg) ∧
    (∃ msg, (requestQuestionAccess demoAfterSubmit 7 1).2 = .error msg) ∧
    (demoAfterSubmit.sessions ((demoAfterSubmit.questions 1).sessionId)).host = 100 :=
  ⟨(hostOnly_spec demoAfterSubmit 7 1 1 5).1.2 (by decide),
    (hostOnly_spec demoAfterSubmit 7 1 1 5).2.1.2 (by decide),
    (hostOnly_spec demoAfterSubmit 7 1 1 5).2.2.2 (by decide),
    (hostOnly_spec demoAfterSubmit 100 1 1 77).1.1 (by rfl)⟩

/-- C5: `requestAnswerAccess` and `getEncryptedAnswer` are asker-only: any
caller other than the recorded asker of the question is rejected, and a
successful call implies the caller is that asker. -/
theorem askerOnly_spec (st : QAState) (sender qid : Nat) :
    (((requestAnswerAccess st sender qid).2 = .ok () →
        (st.questions qid).asker = sender) ∧
      ((st.questions qid).asker ≠ sender →
        ∃ msg, (requestAnswerAccess st sender qid).2 = .error msg)) ∧
    ((∀ h, getEncryptedAnswer st sender qid = .ok h →
        (st.questions qid).asker = sender) ∧
      ((st.questions qid).asker ≠ sender →
        ∃ msg, getEncryptedAnswer st sender qid = .error msg)) := by
  refine ⟨⟨?_, ?_⟩, ⟨?_, ?_⟩⟩
  · intro hok
    unfold requestAnswerAccess at hok
    by_cases hv : 0 < qid ∧ qid ≤ st.questionCount
    · rw [if_neg (not_not_intro hv)] at hok
      by_cases ha : (st.questions qid).asker = sender
      · exact ha
      · rw [if_pos ha] at hok
        exact absurd hok (by simp)
    · rw [if_pos hv] at hok
      exact absurd hok (by simp)
  · intro hne
    unfold requestAnswerAccess
    by_cases hv : 0 < qid ∧ qid ≤ st.questionCount
    · rw [if_neg (not_not_intro hv), if_pos hne]
      exact ⟨_, rfl⟩
    · rw [if_pos hv]
      exact ⟨_, rfl⟩
  · intro h hok
    unfold getEncryptedAnswer at hok
    by_cases hv : 0 < qid ∧ qid ≤ st.questionCount
    · rw [if_neg (not_not_intro hv)] at hok
      by_cases ha : (st.questions qid).asker = sender
      · exact ha
      · rw [if_pos ha] at hok
        exact absurd hok (by simp)
    · rw [if_pos hv] at hok
      exact absurd hok (by simp)
  · intro hne
    unfold getEncryptedAnswer
    by_cases hv : 0 < qid ∧ qid ≤ st.questionCount
    · rw [if_neg (not_not_intro hv), if_pos hne]
      exact ⟨_, rfl⟩
    · rw [if_pos hv]
      exact ⟨_, rfl⟩

/-- Witness for C5: the host (address 100, not the asker of question 1) is
rejected by both asker-only entry points in the answered demo state, and the
asker's successful fetch indeed came from the recorded asker. -/
theorem askerOnly_spec_witness :
    (∃ msg, (requestAnswerAccess demoAfterAnswer 100 1).2 = .error msg) ∧
    (∃ msg, getEncryptedAnswer demoAfterAnswer 100 1 = .error msg) ∧
    (demoAfterAnswer.questions 1).asker = 7 :=
  ⟨(askerOnly_spec demoAfterAnswer 100 1).1.2 (by decide),
    (askerOnly_spec demoAfterAnswer 100 1).2.2 (by decide),
    (askerOnly_spec demoAfterAnswer 7 1).2.1 77 (by rfl)⟩

/-- C9: even for the recorded asker of an existing question, both
`requestAnswerAccess` and `getEncryptedAnswer` fail with
"Question not answered yet" while `isAnswered` is still false. -/
theorem answerAccess_requires_answered (st : QAState) (sender qid : Nat)
    (hp : 0 < qid) (hle : qid ≤ st.questionCount)
    (ha : (st.questions qid).asker = sender)
    (hna : (st.questions qid).isAnswered = false) :
    (requestAnswerAccess st sender qid).2 = .error "Question not answered yet" ∧
    getEncryptedAnswer st sender qid = .error "Question not answered yet" := by
  constructor
  · unfold requestAnswerAccess
    rw [if_neg (not_not_intro ⟨hp, hle⟩), if_neg (not_not_intro ha),
      if_pos (by rw [hna]; exact Bool.false_ne_true)]
  · unfold getEncryptedAnswer
    rw [if_neg (not_not_intro ⟨hp, hle⟩), if_neg (not_not_intro ha),
      if_pos (by rw [hna]; exact Bool.false_ne_true)]

/-- Witness for C9: before the host answers, the asker (address 7) cannot
obtain answer access to question 1. -/
theorem answerAccess_requires_answered_witness :
    (requestAnswerAccess demoAfterSubmit 7 1).2 = .error "Question not answered yet" ∧
    getEncryptedAnswer demoAfterSubmit 7 1 = .error "Question not answered yet" :=
  answerAccess_requires_answered demoAfterSubmit 7 1
    (by decide) (by decide) (by decide) (by decide)

/-- C8: atomicity on error. Every mutating entry point performs all of its
`require` checks before touching storage, so whenever a call reverts — for a
validation, authorization, or state reason — the storage it leaves behind is
exactly the storage it started from. -/
theorem step_atomic (st : QAState) (op : Op) (msg : String)
    (h : (step st op).2 = .error msg) : (step st op).1 = st := by
  cases op
  case create sender now topic description duration =>
    simp only [step] at h ⊢
    unfold createSession at h ⊢
    split_ifs at h ⊢ <;> first | rfl | simp [Except.map] at h
  case submit sender now sid payload =>
    simp only [step] at h ⊢
    unfold submitQuestion at h ⊢
    split_ifs at h ⊢ <;> first | rfl | simp [Except.map] at h
  case answer sender qid payload =>
    simp only [step] at h ⊢
    unfold answerQuestion at h ⊢
    split_ifs at h ⊢ <;> rfl
  case close sender sid =>
    simp only [step] at h ⊢
    unfold closeSession at h ⊢
    split_ifs at h ⊢ <;> rfl
  case reqQAccess sender qid =>
    simp only [step] at h ⊢
    unfold requestQuestionAccess at h ⊢
    split_ifs at h ⊢ <;> rfl
  case reqAAccess sender qid =>
    simp only [step] at h ⊢
    unfold requestAnswerAccess at h ⊢
    split_ifs at h ⊢ <;> rfl

/-- Witness for C8: the rejected non-host answer attempt leaves the demo
storage untouched. -/
theorem step_atomic_witness :
    (step demoAfterSubmit (.answer 7 1 5)).2 = .error "Not session host" ∧
    (step demoAfterSubmit (.answer 7 1 5)).1 = demoAfterSubmit := by
  refine ⟨by rfl, step_atomic demoAfterSubmit (.answer 7 1 5) "Not session host" (by rfl)⟩

/-- Bookkeeping invariant tying each session's counters to its question index:
the index length is the session's `questionCount`, `answeredCount` counts the
answered questions of the index, indexed questions carry the right `sessionId`
and a valid id, ids are not duplicated, every existing question is indexed
under its own session, and sessions that do not exist yet have empty indices. -/
structure Inv (st : QAState) : Prop where
  len_eq : ∀ sid, (st.sessionQuestions sid).length = (st.sessions sid).questionCount
  ans_eq : ∀ sid, (st.sessions sid).answeredCount
      = (st.sessionQuestions sid).countP (fun q => (st.questions q).isAnswered)
  mem_tag : ∀ sid q, q ∈ st.sessionQuestions sid →
      (st.questions q).sessionId = sid ∧ 0 < q ∧ q ≤ st.questionCount
  nodup : ∀ sid, (st.sessionQuestions sid).Nodup
  q_mem : ∀ q, 0 < q → q ≤ st.questionCount →
      q ∈ st.sessionQuestions ((st.questions q).sessionId)
  sid_range : ∀ q, 0 < q → q ≤ st.questionCount →
      0 < (st.questions q).sessionId ∧ (st.questions q).sessionId ≤ st.sessionCount
  out_empty : ∀ sid, st.sessionCount < sid → st.sessionQuestions sid = []
  zero_empty : st.sessionQuestions 0 = []

/-- Flipping one present, previously-false element of a duplicate-free list
raises the count by exactly one. -/
lemma countP_flip (l : List Nat) (x : Nat) (p p' : Nat → Bool) (hnd : l.Nodup)
    (hx : x ∈ l) (hpx : p x = false) (hp'x : p' x = true)
    (hother : ∀ y ∈ l, y ≠ x → p' y = p y) :
    l.countP p' = l.countP p + 1 := by
  induction l with
  | nil => cases hx
  | cons a l ih =>
    rw [List.countP_cons, List.countP_cons]
    rcases List.mem_cons.mp hx with rfl | hxl
    · have hnotin : x ∉ l := (List.nodup_cons.mp hnd).1
      have htail : l.countP p' = l.countP p := by
        apply List.countP_congr
        intro y hy
        rw [hother y (List.mem_cons_of_mem x hy) (fun hxy => hnotin (hxy ▸ hy))]
      rw [htail, hpx, hp'x]
      simp
    · have ha : a ≠ x := by
        rintro rfl
        exact (List.nodup_cons.mp hnd).1 hxl
      rw [ih (List.nodup_cons.mp hnd).2 hxl
        (fun y hy hyx => hother y (List.mem_cons_of_mem a hy) hyx),
        hother a (List.mem_cons_self a l) ha]
      by_cases hpa : p a <;> simp [hpa]

/-- `Inv` holds on the freshly deployed contract. -/
lemma inv_initial : Inv initialState := by
  refine ⟨fun _ => rfl, fun _ => rfl, ?_, fun _ => List.nodup_nil, ?_, ?_,
    fun _ _ => rfl, rfl⟩
  · intro sid q hq
    exact absurd hq (List.not_mem_nil q)
  · intro q hq hle
    simp only [initialState] at hle
    omega
  · intro q hq hle
    simp only [initialState] at hle
    omega

/-- `createSession` preserves the bookkeeping invariant. -/
lemma inv_create (st : QAState) (sender now : Nat) (topic description : String)
    (duration : Nat) (h : Inv st) :
    Inv (createSession st sender now topic description duration).1 := by
  obtain ⟨hlen, hans, htag, hnd, hqmem, hrange, hout, hzero⟩ := h
  unfold createSession
  split_ifs with h1 h2 h3 <;>
    try exact ⟨hlen, hans, htag, hnd, hqmem, hrange, hout, hzero⟩
  refine ⟨?_, ?_, htag, hnd, hqmem, ?_, ?_, hzero⟩
  · intro sid
    simp only [mapSet]
    by_cases hs : sid = st.sessionCount + 1
    · rw [if_pos hs, hs, hout (st.sessionCount + 1) (by omega)]
      rfl
    · rw [if_neg hs]
      exact hlen sid
  · intro sid
    simp only [mapSet]
    by_cases hs : sid = st.sessionCount + 1
    · rw [if_pos hs, hs, hout (st.sessionCount + 1) (by omega)]
      rfl
    · rw [if_neg hs]
      exact hans sid
  · intro q hq hle
    exact ⟨(hrange q hq hle).1, le_trans (hrange q hq hle).2 (Nat.le_succ _)⟩
  · intro sid hsid
    exact hout sid (Nat.lt_of_succ_lt hsid)

/-- `closeSession` preserves the bookkeeping invariant. -/
lemma inv_close (st : QAState) (sender sid : Nat) (h : Inv st) :
    Inv (closeSession st sender sid).1 := by
  obtain ⟨hlen, hans, htag, hnd, hqmem, hrange, hout, hzero⟩ := h
  unfold closeSession
  split_ifs with h1 h2 h3 <;>
    try exact ⟨hlen, hans, htag, hnd, hqmem, hrange, hout, hzero⟩
  refine ⟨?_, ?_, htag, hnd, hqmem, hrange, hout, hzero⟩
  · intro s
    simp only [mapSet]
    by_cases hs : s = sid
    · rw [if_pos hs, hs]
      exact hlen sid
    · rw [if_neg hs]
      exact hlen s
  · intro s
    simp only [mapSet]
    by_cases hs : s = sid
    · rw [if_pos hs, hs]
      exact hans sid
    · rw [if_neg hs]
      exact hans s

/-- The two access-grant entry points preserve the bookkeeping invariant. -/
lemma inv_reqAccess (st : QAState) (sender qid : Nat) (h : Inv st) :
    Inv (requestQuestionAccess st sender qid).1 ∧
    Inv (requestAnswerAccess st sender qid).1 := by
  obtain ⟨hlen, hans, htag, hnd, hqmem, hrange, hout, hzero⟩ := h
  constructor
  · unfold requestQuestionAccess
    split_ifs <;> exact ⟨hlen, hans, htag, hnd, hqmem, hrange, hout, hzero⟩
  · unfold requestAnswerAccess
    split_ifs <;> exact ⟨hlen, hans, htag, hnd, hqmem, hrange, hout, hzero⟩

/-- `submitQuestion` preserves the bookkeeping invariant. -/
lemma inv_submit (st : QAState) (sender now sid payload : Nat) (h : Inv st) :
    Inv (submitQuestion st sender now sid payload).1 := by
  obtain ⟨hlen, hans, htag, hnd, hqmem, hrange, hout, hzero⟩ := h
  unfold submitQuestion
  split_ifs with h1 h2 h3 <;>
    try exact ⟨hlen, hans, htag, hnd, hqmem, hrange, hout, hzero⟩
  dsimp only
  have hcongr : ∀ l : List Nat, (∀ y ∈ l, y ≤ st.questionCount) →
      l.countP (fun q => (if q = st.questionCount + 1 then
        { id := st.questionCount + 1, sessionId := sid, asker := sender,
          timestamp := now, isAnswered := false } else st.questions q).isAnswered)
      = l.countP (fun q => (st.questions q).isAnswered) := by
    intro l hl
    apply List.countP_congr
    intro y hy
    rw [if_neg (by have := hl y hy; omega)]
  refine ⟨?_, ?_, ?_, ?_, ?_, ?_, ?_, ?_⟩
  · intro s
    simp only [mapSet]
    by_cases hs : s = sid
    · subst hs
      rw [if_pos rfl, if_pos rfl]
      dsimp only
      rw [List.length_append, hlen s]
      rfl
    · rw [if_neg hs, if_neg hs]
      exact hlen s
  · intro s
    simp only [mapSet]
    by_cases hs : s = sid
    · subst hs
      rw [if_pos rfl, if_pos rfl]
      dsimp only
      rw [List.countP_append,
        hcongr (st.sessionQuestions s) (fun y hy => (htag s y hy).2.2)]
      have hc2 : ([st.questionCount + 1].countP
          (fun q => (if q = st.questionCount + 1 then
            { id := st.questionCount + 1, sessionId := s, asker := sender,
              timestamp := now, isAnswered := false } else st.questions q).isAnswered)) = 0 := by
        simp
      rw [hc2, hans s]
      omega
    · rw [if_neg hs, if_neg hs]
      rw [hcongr (st.sessionQuestions s) (fun y hy => (htag s y hy).2.2)]
      exact hans s
  · intro s q hq
    simp only [mapSet] at hq ⊢
    by_cases hs : s = sid
    · subst hs
      rw [if_pos rfl] at hq
      rcases List.mem_append.mp hq with hql | hqn
      · have := htag s q hql
        rw [if_neg (by omega)]
        exact ⟨this.1, this.2.1, by omega⟩
      · have hq' : q = st.questionCount + 1 := by simpa using hqn
        rw [if_pos hq']
        exact ⟨rfl, by omega, by omega⟩
    · rw [if_neg hs] at hq
      have := htag s q hq
      rw [if_neg (by omega)]
      exact ⟨this.1, this.2.1, by omega⟩
  · intro s
    simp only [mapSet]
    by_cases hs : s = sid
    · subst hs
      rw [if_pos rfl, List.nodup_append]
      refine ⟨hnd s, List.nodup_singleton _, ?_⟩
      intro a ha hb
      have hb' : a = st.questionCount + 1 := by simpa using hb
      have := (htag s a ha).2.2
      omega
    · rw [if_neg hs]
      exact hnd s
  · intro q hq hle
    simp only [mapSet]
    by_cases hq' : q = st.questionCount + 1
    · subst hq'
      rw [if_pos rfl]
      dsimp only
      rw [if_pos rfl]
      exact List.mem_append_right _ (List.mem_singleton_self _)
    · rw [if_neg hq']
      have hle' : q ≤ st.questionCount := by
        have : q ≤ st.questionCount + 1 := hle
        omega
      have hm := hqmem q hq hle'
      by_cases hts : (st.questions q).sessionId = sid
      · rw [hts, if_pos rfl]
        exact List.mem_append_left _ (hts ▸ hm)
      · rw [if_neg hts]
        exact hm
  · intro q hq hle
    simp only [mapSet]
    by_cases hq' : q = st.questionCount + 1
    · rw [if_pos hq']
      exact ⟨h1.1, h1.2⟩
    · rw [if_neg hq']
      have hle' : q ≤ st.questionCount := by
        have : q ≤ st.questionCount + 1 := hle
        omega
      exact hrange q hq hle'
  · intro s hs
    have hs' : st.sessionCount < s := hs
    simp only [mapSet]
    rw [if_neg (by omega)]
    exact hout s hs'
  · simp only [mapSet]
    rw [if_neg (by omega)]
    exact hzero

/-- `answerQuestion` preserves the bookkeeping invariant. -/
lemma inv_answer (st : QAState) (sender qid payload : Nat) (h : Inv st) :
    Inv (answerQuestion st sender qid payload).1 := by
  obtain ⟨hlen, hans, htag, hnd, hqmem, hrange, hout, hzero⟩ := h
  unfold answerQuestion
  split_ifs with h1 h2 h3 <;>
    try exact ⟨hlen, hans, htag, hnd, hqmem, hrange, hout, hzero⟩
  dsimp only
  have hfalse : (st.questions qid).isAnswered = false := Bool.eq_false_iff.mpr h3
  refine ⟨?_, ?_, ?_, hnd, ?_, ?_, hout, hzero⟩
  · intro s
    simp only [mapSet]
    by_cases hs : s = (st.questions qid).sessionId
    · rw [if_pos hs, hs]
      exact hlen ((st.questions qid).sessionId)
    · rw [if_neg hs]
      exact hlen s
  · intro s
    simp only [mapSet]
    by_cases hs : s = (st.questions qid).sessionId
    · subst hs
      rw [if_pos rfl]
      dsimp only
      have hmem : qid ∈ st.sessionQuestions ((st.questions qid).sessionId) :=
        hqmem qid h1.1 h1.2
      have hflip := countP_flip (st.sessionQuestions ((st.questions qid).sessionId)) qid
        (fun q => (st.questions q).isAnswered)
        (fun q => (if q = qid then
          { st.questions qid with isAnswered := true } else st.questions q).isAnswered)
        (hnd ((st.questions qid).sessionId)) hmem hfalse (by simp)
        (fun y hy hyne => by simp only [if_neg hyne])
      rw [hflip, hans ((st.questions qid).sessionId)]
    · rw [if_neg hs]
      have hc : (st.sessionQuestions s).countP
          (fun q => (if q = qid then
            { st.questions qid with isAnswered := true } else st.questions q).isAnswered)
          = (st.sessionQuestions s).countP (fun q => (st.questions q).isAnswered) := by
        apply List.countP_congr
        intro y hy
        have hyne : y ≠ qid := by
          rintro rfl
          exact hs ((htag s y hy).1.symm)
        rw [if_neg hyne]
      rw [hc]
      exact hans s
  · intro s q hq
    have := htag s q hq
    simp only [mapSet]
    by_cases hq' : q = qid
    · subst hq'
      rw [if_pos rfl]
      exact this
    · rw [if_neg hq']
      exact this
  · intro q hq hle
    simp only [mapSet]
    by_cases hq' : q = qid
    · subst hq'
      rw [if_pos rfl]
      dsimp only
      exact hqmem q hq hle
    · rw [if_neg hq']
      exact hqmem q hq hle
  · intro q hq hle
    simp only [mapSet]
    by_cases hq' : q = qid
    · subst hq'
      rw [if_pos rfl]
      dsimp only
      exact hrange q hq hle
    · rw [if_neg hq']
      exact hrange q hq hle

/-- Every contract call preserves the bookkeeping invariant. -/
lemma inv_step (st : QAState) (op : Op) (h : Inv st) : Inv (step st op).1 := by
  cases op
  case create sender now topic description duration =>
    exact inv_create st sender now topic description duration h
  case submit sender now sid payload => exact inv_submit st sender now sid payload h
  case answer sender qid payload => exact inv_answer st sender qid payload h
  case close sender sid => exact inv_close st sender sid h
  case reqQAccess sender qid => exact (inv_reqAccess st sender qid h).1
  case reqAAccess sender qid => exact (inv_reqAccess st sender qid h).2

/-- Every reachable state satisfies the bookkeeping invariant. -/
lemma reachable_inv {st : QAState} (h : Reachable st) : Inv st := by
  induction h with
  | init => exact inv_initial
  | next op _ ih => exact inv_step _ op ih

/-- C10: in every state reachable by any sequence of contract calls, every
existing session has `answeredCount ≤ questionCount`, and the length of its
question index equals its `questionCount`. -/
theorem session_counters_invariant (st : QAState) (h : Reachable st)
    (sid : Nat) (hpos : 0 < sid) (hle : sid ≤ st.sessionCount) :
    (st.sessions sid).answeredCount ≤ (st.sessions sid).questionCount ∧
    (st.sessionQuestions sid).length = (st.sessions sid).questionCount := by
  obtain ⟨hlen, hans, htag, hnd, hqmem, hrange, hout, hzero⟩ := reachable_inv h
  refine ⟨?_, hlen sid⟩
  rw [hans sid, ← hlen sid]
  exact List.countP_le_length _

/-- Witness for C10: the demo state after create, submit and answer is
reachable and session 1 satisfies both counter equations. -/
theorem session_counters_invariant_witness :
    (demoAfterAnswer.sessions 1).answeredCount ≤ (demoAfterAnswer.sessions 1).questionCount ∧
    (demoAfterAnswer.sessionQuestions 1).length = (demoAfterAnswer.sessions 1).questionCount := by
  have h0 : Reachable initialState := Reachable.init
  have h1 := Reachable.next (.create 100 1000 "AMA" "desc" 3600) h0
  have h2 := Reachable.next (.submit 7 2000 1 42) h1
  have h3 := Reachable.next (.answer 100 1 77) h2
  exact session_counters_invariant demoAfterAnswer h3 1 (by decide) (by decide)

end PrivateQA

namespace WhisperEncryption

/-!
Model of `frontend/src/utils/whisperEncryption.ts`. A JavaScript string is a
sequence of Unicode scalar values (`List Char`); `message.length` counts UTF-16
code units, and the platform `TextEncoder`/`TextDecoder` are the standard
UTF-8 encoding and decoding of scalar values, modelled here explicitly.
-/

/-- JavaScript `message.length`: the number of UTF-16 code units (scalar
values at or above `0x10000` take a surrogate pair, i.e. two units). -/
def strLength (m : List Char) : Nat :=
  (m.map (fun c => if c.toNat < 0x10000 then 1 else 2)).sum

/-- Standard UTF-8 encoding of one Unicode scalar value (`TextEncoder`). -/
def utf8EncodeChar (n : Nat) : List Nat :=
  if n < 0x80 then [n]
  else if n < 0x800 then [0xC0 + n / 64, 0x80 + n % 64]
  else if n < 0x10000 then [0xE0 + n / 4096, 0x80 + n / 64 % 64, 0x80 + n % 64]
  else [0xF0 + n / 262144, 0x80 + n / 4096 % 64, 0x80 + n / 64 % 64, 0x80 + n % 64]

/-- `TextEncoder().encode(message)`: the UTF-8 bytes of the message. -/
def utf8Encode (m : List Char) : List Nat :=
  (m.map (fun c => utf8EncodeChar c.toNat)).flatten

/-- The byte-packing loop of `messageToNumber`:
`number |= BigInt(bytes[i]) << BigInt(i * 8)` for ascending `i`. -/
def packBytes : List Nat → Nat
  | [] => 0
  | b :: bs => b ||| (packBytes bs <<< 8)

/-- `messageToNumber(message)`: throws when `message.length > 16` (modelled as
`none`), otherwise packs the UTF-8 bytes little-endian into an integer. -/
def messageToNumber (m : List Char) : Option Nat :=
  if 16 < strLength m then none
  else some (packBytes (utf8Encode m))

/-- The byte-extraction loop of `numberToMessage`: reads byte `i` as
`(number >> 8*i) & 0xFF` for `i = 0..15`, stopping at the first zero byte. -/
def extractBytesAux : Nat → Nat → List Nat
  | _, 0 => []
  | n, k + 1 => if n % 256 = 0 then [] else n % 256 :: extractBytesAux (n / 256) k

/-- Standard UTF-8 decoding (`TextDecoder`), emitting U+FFFD on malformed
input (the claims only exercise it on well-formed encodings). The first
argument is fuel, one unit per decoded unit; starting it at the byte count
(as `utf8Decode` does) means it is never exhausted, since every decoded unit
consumes at least one byte. -/
def utf8DecodeGo : Nat → List Nat → List Char
  | 0, _ => []
  | _ + 1, [] => []
  | f + 1, b :: bs =>
    if b < 0x80 then Char.ofNat b :: utf8DecodeGo f bs
    else if b < 0xC0 then Char.ofNat 0xFFFD :: utf8DecodeGo f bs
    else if b < 0xE0 then
      match bs with
      | b1 :: bs1 =>
        if 0x80 ≤ b1 ∧ b1 < 0xC0 then
          Char.ofNat ((b - 0xC0) * 64 + (b1 - 0x80)) :: utf8DecodeGo f bs1
        else Char.ofNat 0xFFFD :: utf8DecodeGo f (b1 :: bs1)
      | [] => [Char.ofNat 0xFFFD]
    else if b < 0xF0 then
      match bs with
      | b1 :: b2 :: bs2 =>
        if (0x80 ≤ b1 ∧ b1 < 0xC0) ∧ (0x80 ≤ b2 ∧ b2 < 0xC0) then
          Char.ofNat ((b - 0xE0) * 4096 + (b1 - 0x80) * 64 + (b2 - 0x80)) :: utf8DecodeGo f bs2
        else Char.ofNat 0xFFFD :: utf8DecodeGo f (b1 :: b2 :: bs2)
      | _ => [Char.ofNat 0xFFFD]
    else if b < 0xF8 then
      match bs with
      | b1 :: b2 :: b3 :: bs3 =>
        if (0x80 ≤ b1 ∧ b1 < 0xC0) ∧ (0x80 ≤ b2 ∧ b2 < 0xC0) ∧ (0x80 ≤ b3 ∧ b3 < 0xC0) then
          Char.ofNat ((b - 0xF0) * 262144 + (b1 - 0x80) * 4096 + (b2 - 0x80) * 64 + (b3 - 0x80))
            :: utf8DecodeGo f bs3
        else Char.ofNat 0xFFFD :: utf8DecodeGo f (b1 :: b2 :: b3 :: bs3)
      | _ => [Char.ofNat 0xFFFD]
    else Char.ofNat 0xFFFD :: utf8DecodeGo f bs

/-- `TextDecoder().decode(bytes)`: standard UTF-8 decoding; with the default
`ignoreBOM: false`, a leading byte-order mark `EF BB BF` is stripped and not
emitted. -/
def utf8Decode (l : List Nat) : List Char :=
  if l.take 3 = [0xEF, 0xBB, 0xBF] then utf8DecodeGo (l.drop 3).length (l.drop 3)
  else utf8DecodeGo l.length l

/-- `numberToMessage(number)`: extract up to 16 bytes, then UTF-8 decode. -/
def numberToMessage (n : Nat) : List Char :=
  utf8Decode (extractBytesAux n 16)

/-- Packing a byte below 256 onto a packed tail is plain positional arithmetic. -/
lemma packBytes_cons {b : Nat} (bs : List Nat) (hb : b < 256) :
    packBytes (b :: bs) = 256 * packBytes bs + b := by
  show b ||| (packBytes bs <<< 8) = 256 * packBytes bs + b
  have h256 : (256 : Nat) = 2 ^ 8 := by norm_num
  apply Nat.eq_of_testBit_eq
  intro j
  rw [Nat.testBit_or, Nat.testBit_shiftLeft, h256,
    Nat.testBit_mul_pow_two_add _ (show b < 2 ^ 8 by omega) j]
  by_cases hj : j < 8
  · have h8 : ¬ 8 ≤ j := by omega
    simp [hj, h8]
  · have h8 : 8 ≤ j := by omega
    have hbf : b.testBit j = false :=
      Nat.testBit_lt_two_pow
        (lt_of_lt_of_le (show b < 2 ^ 8 by omega) (Nat.pow_le_pow_right (by norm_num) h8))
    simp [hj, h8, hbf]

/-- A packed list of `n` bytes is below `2 ^ (8 n)`. -/
lemma packBytes_lt (bs : List Nat) (hb : ∀ b ∈ bs, b < 256) :
    packBytes bs < 2 ^ (8 * bs.length) := by
  induction bs with
  | nil => simp [packBytes]
  | cons b bs ih =>
    rw [packBytes_cons bs (hb b (List.mem_cons_self b bs))]
    have ihb := ih (fun x hx => hb x (List.mem_cons_of_mem b hx))
    have hpow : 256 * 2 ^ (8 * bs.length) = 2 ^ (8 * (b :: bs).length) := by
      rw [List.length_cons, show (256 : Nat) = 2 ^ 8 by norm_num, ← pow_add]
      congr 1
      omega
    calc 256 * packBytes bs + b < 256 * (packBytes bs + 1) :=
          by have := hb b (List.mem_cons_self b bs); omega
      _ ≤ 256 * 2 ^ (8 * bs.length) := Nat.mul_le_mul_left 256 ihb
      _ = 2 ^ (8 * (b :: bs).length) := hpow

/-- Extraction is a left inverse of packing for up to `k` nonzero bytes. -/
lemma extractBytesAux_packBytes : ∀ (bs : List Nat) (k : Nat), bs.length ≤ k →
    (∀ b ∈ bs, 0 < b ∧ b < 256) → extractBytesAux (packBytes bs) k = bs := by
  intro bs
  induction bs with
  | nil =>
    intro k _ _
    cases k with
    | zero => rfl
    | succ k => simp [packBytes, extractBytesAux]
  | cons b bs ih =>
    intro k hk hb
    cases k with
    | zero => simp at hk
    | succ k =>
      have hb0 := hb b (List.mem_cons_self b bs)
      rw [packBytes_cons bs hb0.2]
      simp only [extractBytesAux]
      have hmod : (256 * packBytes bs + b) % 256 = b := by omega
      have hdiv : (256 * packBytes bs + b) / 256 = packBytes bs := by omega
      rw [hmod, hdiv, if_neg (by omega)]
      congr 1
      exact ih k (by simpa using hk) (fun x hx => hb x (List.mem_cons_of_mem b hx))

/-- UTF-8 bytes of a valid nonzero scalar are nonzero and below 256. -/
lemma utf8EncodeChar_mem {n : Nat} (hv : n < 0x110000) (hnz : n ≠ 0) :
    ∀ b ∈ utf8EncodeChar n, 0 < b ∧ b < 256 := by
  intro b hb
  unfold utf8EncodeChar at hb
  split_ifs at hb with h1 h2 h3 <;> simp at hb <;> omega

/-- UTF-8 bytes of a valid scalar are below 256. -/
lemma utf8EncodeChar_lt {n : Nat} (hv : n < 0x110000) :
    ∀ b ∈ utf8EncodeChar n, b < 256 := by
  intro b hb
  unfold utf8EncodeChar at hb
  split_ifs at hb with h1 h2 h3 <;> simp at hb <;> omega

/-- Decoding undoes encoding of one scalar at the head of a byte stream. -/
lemma utf8DecodeGo_encodeChar (c : Char) (bs : List Nat) (f : Nat) :
    utf8DecodeGo (f + 1) (utf8EncodeChar c.toNat ++ bs) = c :: utf8DecodeGo f bs := by
  have hvalid : c.toNat < 0xd800 ∨ (0xdfff < c.toNat ∧ c.toNat < 0x110000) := c.valid
  have hv : c.toNat < 0x110000 := by rcases hvalid with h | h <;> omega
  have hofn : Char.ofNat c.toNat = c := Char.ofNat_toNat c
  set n := c.toNat with hn
  by_cases h1 : n < 0x80
  · rw [utf8EncodeChar, if_pos h1, List.singleton_append]
    simp only [utf8DecodeGo]
    rw [if_pos h1, hofn]
  · by_cases h2 : n < 0x800
    · rw [utf8EncodeChar, if_neg h1, if_pos h2]
      simp only [List.cons_append, List.nil_append, utf8DecodeGo]
      have hA : ¬ (0xC0 + n / 64 < 0x80) := by omega
      have hB : ¬ (0xC0 + n / 64 < 0xC0) := by omega
      have hC : 0xC0 + n / 64 < 0xE0 := by omega
      have hD : 0x80 ≤ 0x80 + n % 64 ∧ 0x80 + n % 64 < 0xC0 := by omega
      rw [if_neg hA, if_neg hB, if_pos hC]
      simp only [List.append_eq, List.singleton_append, List.cons_append, List.nil_append]
      rw [if_pos hD]
      have hX : (0xC0 + n / 64 - 0xC0) * 64 + (0x80 + n % 64 - 0x80) = n := by omega
      rw [hX, hofn]
    · by_cases h3 : n < 0x10000
      · rw [utf8EncodeChar, if_neg h1, if_neg h2, if_pos h3]
        simp only [List.cons_append, List.nil_append, utf8DecodeGo]
        have hA : ¬ (0xE0 + n / 4096 < 0x80) := by omega
        have hB : ¬ (0xE0 + n / 4096 < 0xC0) := by omega
        have hC : ¬ (0xE0 + n / 4096 < 0xE0) := by omega
        have hD : 0xE0 + n / 4096 < 0xF0 := by omega
        have hE : (0x80 ≤ 0x80 + n / 64 % 64 ∧ 0x80 + n / 64 % 64 < 0xC0) ∧
            0x80 ≤ 0x80 + n % 64 ∧ 0x80 + n % 64 < 0xC0 := by omega
        rw [if_neg hA, if_neg hB, if_neg hC, if_pos hD]
        simp only [List.append_eq, List.singleton_append, List.cons_append, List.nil_append]
        rw [if_pos hE]
        have hX : (0xE0 + n / 4096 - 0xE0) * 4096 + (0x80 + n / 64 % 64 - 0x80) * 64 +
            (0x80 + n % 64 - 0x80) = n := by omega
        rw [hX, hofn]
      · rw [utf8EncodeChar, if_neg h1, if_neg h2, if_neg h3]
        simp only [List.cons_append, List.nil_append, utf8DecodeGo]
        have hA : ¬ (0xF0 + n / 262144 < 0x80) := by omega
        have hB : ¬ (0xF0 + n / 262144 < 0xC0) := by omega
        have hC : ¬ (0xF0 + n / 262144 < 0xE0) := by omega
        have hD : ¬ (0xF0 + n / 262144 < 0xF0) := by omega
        have hE : 0xF0 + n / 262144 < 0xF8 := by omega
        have hF : (0x80 ≤ 0x80 + n / 4096 % 64 ∧ 0x80 + n / 4096 % 64 < 0xC0) ∧
            (0x80 ≤ 0x80 + n / 64 % 64 ∧ 0x80 + n / 64 % 64 < 0xC0) ∧
            0x80 ≤ 0x80 + n % 64 ∧ 0x80 + n % 64 < 0xC0 := by omega
        rw [if_neg hA, if_neg hB, if_neg hC, if_neg hD, if_pos hE]
        simp only [List.append_eq, List.singleton_append, List.cons_append, List.nil_append]
        rw [if_pos hF]
        have hX : (0xF0 + n / 262144 - 0xF0) * 262144 + (0x80 + n / 4096 % 64 - 0x80) * 4096 +
            (0x80 + n / 64 % 64 - 0x80) * 64 + (0x80 + n % 64 - 0x80) = n := by omega
        rw [hX, hofn]

/-- A message never has more scalar values than UTF-8 bytes. -/
lemma length_le_encode (m : List Char) : m.length ≤ (utf8Encode m).length := by
  induction m with
  | nil => simp [utf8Encode]
  | cons c m ih =>
    have henc : utf8Encode (c :: m) = utf8EncodeChar c.toNat ++ utf8Encode m := by
      simp [utf8Encode]
    have hc : 1 ≤ (utf8EncodeChar c.toNat).length := by
      unfold utf8EncodeChar
      split_ifs <;> simp
    rw [henc]
    simp only [List.length_cons, List.length_append]
    omega

/-- With enough fuel, decoding undoes encoding of a whole message. -/
lemma utf8DecodeGo_encode (m : List Char) : ∀ f, m.length ≤ f →
    utf8DecodeGo f (utf8Encode m) = m := by
  induction m with
  | nil =>
    intro f _
    cases f with
    | zero => rfl
    | succ f => rfl
  | cons c m ih =>
    intro f hf
    cases f with
    | zero => simp at hf
    | succ f =>
      have henc : utf8Encode (c :: m) = utf8EncodeChar c.toNat ++ utf8Encode m := by
        simp [utf8Encode]
      rw [henc, utf8DecodeGo_encodeChar, ih f (by simpa using hf)]

/-- The encoding of a message starts with the UTF-8 byte-order mark
`EF BB BF` only when the message itself starts with U+FEFF. -/
lemma utf8Encode_take3_ne_bom (m : List Char)
    (hbom : m.head? ≠ some (Char.ofNat 0xFEFF)) :
    (utf8Encode m).take 3 ≠ [0xEF, 0xBB, 0xBF] := by
  intro heq
  cases m with
  | nil => simp [utf8Encode] at heq
  | cons c m' =>
    have henc : utf8Encode (c :: m') = utf8EncodeChar c.toNat ++ utf8Encode m' := by
      simp [utf8Encode]
    rw [henc] at heq
    have hvalid : c.toNat < 0xd800 ∨ (0xdfff < c.toNat ∧ c.toNat < 0x110000) := c.valid
    have hv : c.toNat < 0x110000 := by rcases hvalid with h | h <;> omega
    set n := c.toNat with hn
    by_cases h1 : n < 0x80
    · rw [utf8EncodeChar, if_pos h1, List.singleton_append, List.take_succ_cons] at heq
      obtain ⟨ha, -⟩ := List.cons.injEq .. ▸ heq
      omega
    · by_cases h2 : n < 0x800
      · rw [utf8EncodeChar, if_neg h1, if_pos h2] at heq
        simp only [List.cons_append, List.nil_append, List.take_succ_cons,
          List.cons.injEq] at heq
        omega
      · by_cases h3 : n < 0x10000
        · rw [utf8EncodeChar, if_neg h1, if_neg h2, if_pos h3] at heq
          simp only [List.cons_append, List.nil_append, List.take_succ_cons,
            List.cons.injEq] at heq
          have hc : n = 0xFEFF := by omega
          apply hbom
          rw [List.head?_cons, show c = Char.ofNat 0xFEFF from by
            rw [← hc, hn, Char.ofNat_toNat]]
        · rw [utf8EncodeChar, if_neg h1, if_neg h2, if_neg h3] at heq
          simp only [List.cons_append, List.nil_append, List.take_succ_cons,
            List.cons.injEq] at heq
          omega

/-- Decoding undoes encoding of a whole message not starting with U+FEFF. -/
lemma utf8Decode_encode (m : List Char) (hbom : m.head? ≠ some (Char.ofNat 0xFEFF)) :
    utf8Decode (utf8Encode m) = m := by
  rw [utf8Decode, if_neg (utf8Encode_take3_ne_bom m hbom)]
  exact utf8DecodeGo_encode m _ (length_le_encode m)

/-- The model reproduces the BOM divergence: the 1-character text U+FEFF
packs to the integer `0xBFBBEF`, which decodes back to the empty string
because the decoder strips the leading byte-order mark. -/
lemma numberToMessage_bom :
    messageToNumber [Char.ofNat 0xFEFF] = some 0xBFBBEF ∧
    numberToMessage 0xBFBBEF = [] := by
  refine ⟨by decide, by decide⟩

/-- Every UTF-8 byte of a message made of nonzero scalars is in `(0, 256)`. -/
lemma utf8Encode_mem (m : List Char) (hnz : ∀ c ∈ m, c.toNat ≠ 0) :
    ∀ b ∈ utf8Encode m, 0 < b ∧ b < 256 := by
  intro b hb
  rw [utf8Encode] at hb
  rcases List.mem_flatten.mp hb with ⟨l, hl, hbl⟩
  rcases List.mem_map.mp hl with ⟨c, hcm, rfl⟩
  have hvalid : c.toNat < 0xd800 ∨ (0xdfff < c.toNat ∧ c.toNat < 0x110000) := c.valid
  have hv : c.toNat < 0x110000 := by rcases hvalid with h | h <;> omega
  exact utf8EncodeChar_mem hv (hnz c hcm) b hbl

/-- Every UTF-8 byte of any message is below 256. -/
lemma utf8Encode_lt (m : List Char) : ∀ b ∈ utf8Encode m, b < 256 := by
  intro b hb
  rw [utf8Encode] at hb
  rcases List.mem_flatten.mp hb with ⟨l, hl, hbl⟩
  rcases List.mem_map.mp hl with ⟨c, hcm, rfl⟩
  have hvalid : c.toNat < 0xd800 ∨ (0xdfff < c.toNat ∧ c.toNat < 0x110000) := c.valid
  have hv : c.toNat < 0x110000 := by rcases hvalid with h | h <;> omega
  exact utf8EncodeChar_lt hv b hbl

/-- The UTF-16 length never exceeds the UTF-8 byte length. -/
lemma strLength_le_encode (m : List Char) : strLength m ≤ (utf8Encode m).length := by
  induction m with
  | nil => simp [strLength, utf8Encode]
  | cons c m ih =>
    have henc : utf8Encode (c :: m) = utf8EncodeChar c.toNat ++ utf8Encode m := by
      simp [utf8Encode]
    have hc : (if c.toNat < 0x10000 then 1 else 2) ≤ (utf8EncodeChar c.toNat).length := by
      unfold utf8EncodeChar
      split_ifs <;> simp <;> omega
    rw [henc]
    simp only [strLength, List.map_cons, List.sum_cons, List.length_append]
    exact Nat.add_le_add hc ih

/-- C6 counterexample: the one-character message `"\u0000"` has at most 16
characters, yet encodes to the integer 0, which decodes back to the empty
string, not to the original message: the round-trip claim fails as stated. -/
theorem roundTrip_nul_counterexample :
    strLength [Char.ofNat 0] ≤ 16 ∧
    messageToNumber [Char.ofNat 0] = some 0 ∧
    numberToMessage 0 = [] ∧
    ([] : List Char) ≠ [Char.ofNat 0] := by
  refine ⟨by decide, by decide, by decide, by decide⟩

/-- C6 (amended): for every message whose UTF-8 encoding has at most 16
bytes, which contains no NUL character, and which does not start with the
byte-order mark U+FEFF (stripped by `TextDecoder` on decode),
`messageToNumber` succeeds and `numberToMessage` recovers the identical
original text, byte-exact. -/
theorem messageNumber_roundTrip (m : List Char)
    (hbytes : (utf8Encode m).length ≤ 16)
    (hnz : ∀ c ∈ m, c.toNat ≠ 0)
    (hbom : m.head? ≠ some (Char.ofNat 0xFEFF)) :
    messageToNumber m = some (packBytes (utf8Encode m)) ∧
    numberToMessage (packBytes (utf8Encode m)) = m := by
  constructor
  · rw [messageToNumber, if_neg (by have := strLength_le_encode m; omega)]
  · rw [numberToMessage,
      extractBytesAux_packBytes (utf8Encode m) 16 hbytes (utf8Encode_mem m hnz),
      utf8Decode_encode m hbom]

/-- Witness for C6: the two-character message "Hi" round-trips exactly. -/
theorem messageNumber_roundTrip_witness :
    messageToNumber ['H', 'i'] = some (packBytes (utf8Encode ['H', 'i'])) ∧
    numberToMessage (packBytes (utf8Encode ['H', 'i'])) = ['H', 'i'] :=
  messageNumber_roundTrip ['H', 'i'] (by decide) (by decide) (by decide)

/-- C7 counterexample: nine copies of `'é'` form a 9-character message, which
`messageToNumber` accepts, yet its UTF-8 encoding is 18 bytes and the packed
integer is at least `2 ^ 128`: the 128-bit-fit claim fails as stated. -/
theorem pack128_overflow_counterexample :
    strLength (List.replicate 9 (Char.ofNat 0xE9)) ≤ 16 ∧
    messageToNumber (List.replicate 9 (Char.ofNat 0xE9))
      = some (packBytes (utf8Encode (List.replicate 9 (Char.ofNat 0xE9)))) ∧
    2 ^ 128 ≤ packBytes (utf8Encode (List.replicate 9 (Char.ofNat 0xE9))) := by
  refine ⟨by decide, by decide, by decide⟩

/-- C7 (amended): `messageToNumber` rejects exactly the messages with more
than 16 UTF-16 code units, and the packed integer of every accepted message
fits in 128 bits provided its UTF-8 encoding is at most 16 bytes (in
particular for any ASCII message of at most 16 characters). -/
theorem messageToNumber_spec (m : List Char) :
    (messageToNumber m = none ↔ 16 < strLength m) ∧
    ((utf8Encode m).length ≤ 16 →
      ∀ n, messageToNumber m = some n → n < 2 ^ 128) := by
  constructor
  · rw [messageToNumber]
    by_cases h : 16 < strLength m
    · simp [h]
    · simp [h]
  · intro hb n hn
    rw [messageToNumber, if_neg (by have := strLength_le_encode m; omega)] at hn
    have hn' : packBytes (utf8Encode m) = n := by
      injection hn
    have hlt := packBytes_lt (utf8Encode m) (utf8Encode_lt m)
    have hexp : (2 : Nat) ^ (8 * (utf8Encode m).length) ≤ 2 ^ 128 :=
      Nat.pow_le_pow_right (by norm_num) (by omega)
    omega

/-- Witness for C7: a 17-character message is rejected, and the packed
integer of the 2-byte ASCII message "Hi" is below `2 ^ 128`. -/
theorem messageToNumber_spec_witness :
    messageToNumber (List.replicate 17 (Char.ofNat 97)) = none ∧
    packBytes (utf8Encode ['H', 'i']) < 2 ^ 128 :=
  ⟨(messageToNumber_spec (List.replicate 17 (Char.ofNat 97))).1.mpr (by decide),
    (messageToNumber_spec ['H', 'i']).2 (by decide) _ (by decide)⟩

end WhisperEncryption
